import Mathlib

/-!
Shallow embedding of `spsc::Ringbuffer<T, BufferSize, FakeTSO, IndexT>` from
`include/spsc/ringbuffer.hpp`, together with theorems settling the frozen
claims about its specification.

Modelling conventions:
* `IndexT` (an unsigned integer of bit width `w`) is modelled as `Nat` values
  kept below `W = 2 ^ w`; unsigned wraparound arithmetic is written with
  explicit `% W`.
* C++ integral promotion is modelled: on the targeted platforms `int` is
  32 bits, so for `w < 32` (`uint8_t`, `uint16_t`) the operands of
  `current_head - current_tail` are promoted to signed `int` and the
  difference is exact (possibly negative), while for `w ≥ 32` the
  subtraction wraps modulo `2 ^ w`.  Expressions that assign the difference
  back into an `IndexT` (`Size`, `Available`, `Discard`, the batch loops)
  truncate modulo `2 ^ w` either way and are promotion-independent; only the
  direct comparisons in `PushImpl`, `PushFromCallback` and `At` differ.
* `std::size_t` quantities (`count`, `written`, array offsets) are modelled as
  plain `Nat`; the source's static assertion `sizeof(IndexT) <= sizeof(size_t)`
  makes the `IndexT → size_t` conversions value-preserving.
* The slot array `data_buff_` is a total function `Nat → α`; the code only
  ever accesses indices below `BufferSize`.
* The memory orders (acquire/release/relaxed, `FakeTSO`) affect no value
  computed in the single-threaded semantics embedded here.
-/

namespace Spsc

/-- Compile-time parameters of the template: `n` is `BufferSize`, `w` the bit
width of `IndexT`. -/
structure RBConfig where
  n : Nat
  w : Nat

/-- Definition of `2 ^ w`, one past the maximal value of `IndexT`. -/
def RBConfig.W (cfg : RBConfig) : Nat := 2 ^ cfg.w

/-- The static assertions of the template: nonzero size, power-of-two size,
and `BufferSize <= MAX(IndexT) >> 1`. -/
def RBConfig.Valid (cfg : RBConfig) : Prop :=
  0 < cfg.n ∧ (∃ k, cfg.n = 2 ^ k) ∧ cfg.n ≤ (2 ^ cfg.w - 1) >>> 1

/-- The run-time state: the two counters (each a value of `IndexT`) and the
slot array `data_buff_`. -/
structure RBState (α : Type) where
  head : Nat
  tail : Nat
  buf : Nat → α

/-- The state established by the constructor: both counters zero, the slots
value-initialized to a default. -/
def mkRB (d : α) : RBState α := ⟨0, 0, fun _ => d⟩

/-- Unsigned subtraction `a - b` of two `IndexT` values (both `< W`). -/
def wsub (cfg : RBConfig) (a b : Nat) : Nat := (a + cfg.W - b) % cfg.W

/-- Functional update of one slot of the array. -/
def setSlot (b : Nat → α) (i : Nat) (v : α) : Nat → α :=
  fun j => if j = i then v else b j

/-- Model of `memcpy(dst + dstOff, src + srcOff, len * sizeof(T))` on element arrays. -/
def copyArr (dst : Nat → α) (dstOff : Nat) (src : Nat → α) (srcOff len : Nat) :
    Nat → α :=
  fun i => if dstOff ≤ i ∧ i < dstOff + len then src (srcOff + (i - dstOff)) else dst i

/-- One iteration of the batch-push copy: at most two contiguous runs from
`src` into the ring storage `b`, starting at slot `off`, `k` elements. -/
def twoRunWrite (cfg : RBConfig) (b src : Nat → α) (off k : Nat) : Nat → α :=
  if min k (cfg.n - off) < k
  then copyArr (copyArr b off src 0 (min k (cfg.n - off))) 0 src
        (min k (cfg.n - off)) (k - min k (cfg.n - off))
  else copyArr b off src 0 (min k (cfg.n - off))

/-- One iteration of the batch-pop copy: at most two contiguous runs from the
ring storage `buf` starting at slot `off` into `dst`, `k` elements. -/
def twoRunRead (cfg : RBConfig) (dst buf : Nat → α) (off k : Nat) : Nat → α :=
  if min k (cfg.n - off) < k
  then copyArr (copyArr dst 0 buf off (min k (cfg.n - off)))
        (min k (cfg.n - off)) buf 0 (k - min k (cfg.n - off))
  else copyArr dst 0 buf off (min k (cfg.n - off))

/-- The source's fullness test `(current_head - current_tail) == BufferSize`.
For `IndexT` narrower than `int` (`w < 32`) the operands are promoted to
signed `int`: the difference is exact and, converted to `size_t` for the
comparison, a negative difference becomes huge and never equals
`BufferSize`; the test then holds iff `head = tail + N` without borrow.
For `IndexT` of rank at least `int` the subtraction wraps modulo `2 ^ w`
and the test holds iff `(head - tail) mod 2^w = N`. -/
def fullCheck (cfg : RBConfig) (head tail : Nat) : Prop :=
  if cfg.w < 32 then head = tail + cfg.n
  else wsub cfg head tail = cfg.n

instance (cfg : RBConfig) (a b : Nat) : Decidable (fullCheck cfg a b) :=
  if h : cfg.w < 32 then
    decidable_of_iff (a = b + cfg.n) (by unfold fullCheck; rw [if_pos h])
  else
    decidable_of_iff (wsub cfg a b = cfg.n) (by unfold fullCheck; rw [if_neg h])

/-- The source's bounds test in `At`:
`(current_head - current_tail) <= static_cast<IndexT>(index)`.  The cast
truncates `index` modulo `2 ^ w`.  For `IndexT` narrower than `int` both
sides are promoted to signed `int` and the comparison is signed with the
exact difference — `head − tail ≤ index mod 2^w` over `ℤ`, i.e.
`head ≤ tail + index mod 2^w` — so any borrowed (negative) difference
passes the test.  For `IndexT` of rank at least `int` the comparison is
unsigned on the wrapped difference. -/
def atCheck (cfg : RBConfig) (head tail index : Nat) : Prop :=
  if cfg.w < 32 then head ≤ tail + index % cfg.W
  else wsub cfg head tail ≤ index % cfg.W

instance (cfg : RBConfig) (a b i : Nat) : Decidable (atCheck cfg a b i) :=
  if h : cfg.w < 32 then
    decidable_of_iff (a ≤ b + i % cfg.W) (by unfold atCheck; rw [if_pos h])
  else
    decidable_of_iff (wsub cfg a b ≤ i % cfg.W) (by unfold atCheck; rw [if_neg h])

/-- Model of `PushImpl`: fail when `head - tail == BufferSize` (with the
promotion semantics of `fullCheck`), else write `data_buff_[head & kMask]`
and store `head + 1`. -/
def push (cfg : RBConfig) (s : RBState α) (v : α) : Bool × RBState α :=
  if fullCheck cfg s.head s.tail then (false, s)
  else (true, { s with
                  buf := setSlot s.buf (s.head &&& (cfg.n - 1)) v,
                  head := (s.head + 1) % cfg.W })

/-- Model of `PushFromCallback`: the callback is modelled as a state transformer
`σ → α × σ` so that the number of invocations is visible; it is applied only
after the fullness check succeeds. -/
def pushFromCallback (cfg : RBConfig) (s : RBState α) (f : σ → α × σ) (cs : σ) :
    Bool × RBState α × σ :=
  if fullCheck cfg s.head s.tail then (false, s, cs)
  else
    (true,
     { s with
         buf := setSlot s.buf (s.head &&& (cfg.n - 1)) (f cs).1,
         head := (s.head + 1) % cfg.W },
     (f cs).2)

/-- Model of `Pop`: fail when `tail == head`, else read `data_buff_[tail & kMask]` and
store `tail + 1`. -/
def pop (cfg : RBConfig) (s : RBState α) : Option α × RBState α :=
  if s.tail = s.head then (none, s)
  else (some (s.buf (s.tail &&& (cfg.n - 1))),
        { s with tail := (s.tail + 1) % cfg.W })

/-- Model of `Pop(T& data)` with its out-parameter made explicit: `d` is the value the
caller's variable holds before the call, and the third component of the result
is its value after the call. -/
def popRef (cfg : RBConfig) (s : RBState α) (d : α) : Bool × RBState α × α :=
  if s.tail = s.head then (false, s, d)
  else (true, { s with tail := (s.tail + 1) % cfg.W },
        s.buf (s.tail &&& (cfg.n - 1)))

/-- Model of `Discard(count)`: advance `tail` by `min(count, head - tail)`. -/
def discard (cfg : RBConfig) (s : RBState α) (count : Nat) : Nat × RBState α :=
  let available := wsub cfg s.head s.tail
  let toDiscard := min count available
  if 0 < toDiscard then
    (toDiscard, { s with tail := (s.tail + toDiscard) % cfg.W })
  else (toDiscard, s)

/-- Model of `Peek`: the returned pointer is modelled by the slot index it points at. -/
def peek (cfg : RBConfig) (s : RBState α) : Option Nat :=
  if s.tail = s.head then none
  else some (s.tail &&& (cfg.n - 1))

/-- Model of `At(index)`: `index` is a `size_t`; the bounds check is
`atCheck` (promotion- and truncation-aware), while the returned slot is
computed in `size_t` arithmetic. The returned pointer is modelled by the
slot index. -/
def atIdx (cfg : RBConfig) (s : RBState α) (index : Nat) : Option Nat :=
  if atCheck cfg s.head s.tail index then none
  else some ((s.tail + index) &&& (cfg.n - 1))

/-- The loop of `PushBatchCore(buf, count)`: `written` is the loop variable;
the loop terminates because each iteration writes at least one element. -/
def pushBatchLoop (cfg : RBConfig) (src : Nat → α) (count : Nat)
    (s : RBState α) (written : Nat) : Nat × RBState α :=
  if h : written < count then
    let space := (cfg.n + cfg.W - wsub cfg s.head s.tail) % cfg.W
    if hs : 0 < space then
      let toWrite := min (count - written) space
      let headOff := s.head &&& (cfg.n - 1)
      let firstPart := min toWrite (cfg.n - headOff)
      let buf1 := copyArr s.buf headOff src written firstPart
      let buf2 := if firstPart < toWrite
        then copyArr buf1 0 src (written + firstPart) (toWrite - firstPart)
        else buf1
      pushBatchLoop cfg src count
        { s with buf := buf2, head := (s.head + toWrite) % cfg.W }
        (written + toWrite)
    else (written, s)
  else (written, s)
termination_by count - written
decreasing_by
  omega

/-- Model of `PushBatchCore(buf, count)` (the variant without a callback). -/
def pushBatchCore (cfg : RBConfig) (s : RBState α) (src : Nat → α)
    (count : Nat) : Nat × RBState α :=
  pushBatchLoop cfg src count s 0

/-- The loop of `PopBatchCore(buf, count)`; `dst` is the caller's output
array, threaded through the loop. -/
def popBatchLoop (cfg : RBConfig) (count : Nat) (s : RBState α)
    (dst : Nat → α) (read : Nat) : Nat × RBState α × (Nat → α) :=
  if h : read < count then
    let available := wsub cfg s.head s.tail
    if ha : 0 < available then
      let toRead := min (count - read) available
      let tailOff := s.tail &&& (cfg.n - 1)
      let firstPart := min toRead (cfg.n - tailOff)
      let dst1 := copyArr dst read s.buf tailOff firstPart
      let dst2 := if firstPart < toRead
        then copyArr dst1 (read + firstPart) s.buf 0 (toRead - firstPart)
        else dst1
      popBatchLoop cfg count { s with tail := (s.tail + toRead) % cfg.W }
        dst2 (read + toRead)
    else (read, s, dst)
  else (read, s, dst)
termination_by count - read
decreasing_by
  omega

/-- Model of `PopBatchCore(buf, count)` (the variant without a callback). -/
def popBatchCore (cfg : RBConfig) (s : RBState α) (dst : Nat → α)
    (count : Nat) : Nat × RBState α × (Nat → α) :=
  popBatchLoop cfg count s dst 0

/-- Model of `ProducerClear`: store the loaded `tail` into `head`. -/
def producerClear (s : RBState α) : RBState α := { s with head := s.tail }

/-- Model of `ConsumerClear`: store the loaded `head` into `tail`. -/
def consumerClear (s : RBState α) : RBState α := { s with tail := s.head }

/-- Model of `Size()`: `head - tail` in `IndexT` arithmetic. -/
def size (cfg : RBConfig) (s : RBState α) : Nat := wsub cfg s.head s.tail

/-- Model of `Available()`: `BufferSize - (head - tail)` in `IndexT` arithmetic. -/
def availableSlots (cfg : RBConfig) (s : RBState α) : Nat :=
  (cfg.n + cfg.W - wsub cfg s.head s.tail) % cfg.W

/-- Model of `Capacity()`. -/
def capacity (cfg : RBConfig) : Nat := cfg.n

/-- Well-formedness of a state: both counters are `IndexT` values and the
live difference is at most the capacity. -/
def Good (cfg : RBConfig) (s : RBState α) : Prop :=
  s.head < cfg.W ∧ s.tail < cfg.W ∧ wsub cfg s.head s.tail ≤ cfg.n

/-! ### Producer/consumer runs of single-element operations

A sequential interleaving of the single producer's `Push` calls and the
single consumer's `Pop` calls, accumulating the successfully pushed values
`P` and the successfully popped values `Q`. -/

inductive SPOp (α : Type) where
  | push (v : α)
  | pop

def runAcc (cfg : RBConfig) :
    List (SPOp α) → RBState α → List α → List α → RBState α × List α × List α
  | [], s, P, Q => (s, P, Q)
  | SPOp.push v :: ops, s, P, Q =>
      let r := push cfg s v
      runAcc cfg ops r.2 (if r.1 then P ++ [v] else P) Q
  | SPOp.pop :: ops, s, P, Q =>
      match pop cfg s with
      | (none, s') => runAcc cfg ops s' P Q
      | (some v, s') => runAcc cfg ops s' P (Q ++ [v])

/-- The full operation surface of the buffer, for reachability statements.
`pushCb` is `PushFromCallback` with a callback returning `v`; `popB` carries
the caller's output array. -/
inductive FullOp (α : Type) where
  | push (v : α)
  | pushCb (v : α)
  | pushB (src : Nat → α) (count : Nat)
  | pop
  | popB (dst : Nat → α) (count : Nat)
  | disc (count : Nat)
  | pclear
  | cclear

/-- The state effect of one operation. -/
def stepFull (cfg : RBConfig) (s : RBState α) : FullOp α → RBState α
  | FullOp.push v => (push cfg s v).2
  | FullOp.pushCb v => (pushFromCallback cfg s (fun u => (v, u)) ()).2.1
  | FullOp.pushB src count => (pushBatchCore cfg s src count).2
  | FullOp.pop => (pop cfg s).2
  | FullOp.popB dst count => (popBatchCore cfg s dst count).2.1
  | FullOp.disc count => (discard cfg s count).2
  | FullOp.pclear => producerClear s
  | FullOp.cclear => consumerClear s

/-- Run a sequence of operations (state effects only). -/
def runFull (cfg : RBConfig) : List (FullOp α) → RBState α → RBState α
  | [], s => s
  | op :: ops, s => runFull cfg ops (stepFull cfg s op)

/-- A sequence of `m` push-then-pop cycles pushing `0, 1, …, m-1`: each
cycle leaves the buffer empty while advancing both counters, steering the
8-bit counters toward the wraparound (borrow) window. -/
def borrowOps (m : Nat) : List (SPOp Nat) :=
  (List.range m).flatMap (fun i => [SPOp.push i, SPOp.pop])

/-- The same cycles over the full operation surface. -/
def borrowOpsF (m : Nat) : List (FullOp Nat) :=
  (List.range m).flatMap (fun i => [FullOp.push i, FullOp.pop])

/-! ### Arithmetic facts about the index discipline -/

theorem RBConfig.W_pos (cfg : RBConfig) : 0 < cfg.W := Nat.pos_pow_of_pos _ (by omega)

theorem RBConfig.Valid.n_pos {cfg : RBConfig} (h : cfg.Valid) : 0 < cfg.n := h.1

theorem RBConfig.Valid.two_n_le {cfg : RBConfig} (h : cfg.Valid) :
    2 * cfg.n ≤ cfg.W - 1 := by
  have h3 := h.2.2
  have hW : 0 < cfg.W := cfg.W_pos
  rw [Nat.shiftRight_succ, Nat.shiftRight_zero] at h3
  have : cfg.n ≤ (cfg.W - 1) / 2 := h3
  omega

theorem RBConfig.Valid.n_lt_W {cfg : RBConfig} (h : cfg.Valid) : cfg.n < cfg.W := by
  have := h.two_n_le
  have := h.n_pos
  omega

theorem RBConfig.Valid.n_dvd_W {cfg : RBConfig} (h : cfg.Valid) : cfg.n ∣ cfg.W := by
  obtain ⟨k, hk⟩ := h.2.1
  have hlt : cfg.n < cfg.W := h.n_lt_W
  rw [hk] at hlt ⊢
  exact pow_dvd_pow 2 (le_of_lt ((Nat.pow_lt_pow_iff_right (by omega)).mp hlt))

/-- The slot index `counter & kMask` equals `counter % BufferSize`. -/
theorem mask_eq_mod {cfg : RBConfig} (h : cfg.Valid) (x : Nat) :
    x &&& (cfg.n - 1) = x % cfg.n := by
  obtain ⟨k, hk⟩ := h.2.1
  rw [hk]
  exact Nat.and_pow_two_sub_one_eq_mod x k

theorem wsub_self (cfg : RBConfig) (a : Nat) : wsub cfg a a = 0 := by
  unfold wsub
  rw [Nat.add_sub_cancel_left, Nat.mod_self]

/-- Unsigned subtraction of wrapped counters recovers the true difference
modulo `W`. -/
theorem wsub_counts (cfg : RBConfig) {A B : Nat} (h : B ≤ A) :
    wsub cfg (A % cfg.W) (B % cfg.W) = (A - B) % cfg.W := by
  have hW : 0 < cfg.W := cfg.W_pos
  have hBr : B % cfg.W < cfg.W := Nat.mod_lt _ hW
  have hdm : cfg.W * (B / cfg.W) + B % cfg.W = B := Nat.div_add_mod B cfg.W
  unfold wsub
  rw [Nat.add_sub_assoc (le_of_lt hBr), Nat.mod_add_mod]
  have hkey : A + (cfg.W - B % cfg.W) = (A - B) + cfg.W * (B / cfg.W) + cfg.W := by
    omega
  rw [hkey]
  rw [Nat.add_assoc, ← Nat.mul_succ, Nat.add_mul_mod_self_left]

/-- In particular a live difference of at most `n < W` is recovered exactly. -/
theorem wsub_counts_small {cfg : RBConfig} (hv : cfg.Valid) {A B : Nat} (h : B ≤ A)
    (hd : A - B ≤ cfg.n) :
    wsub cfg (A % cfg.W) (B % cfg.W) = A - B := by
  rw [wsub_counts cfg h]
  exact Nat.mod_eq_of_lt (lt_of_le_of_lt hd hv.n_lt_W)

theorem valid_4_8 : RBConfig.Valid ⟨4, 8⟩ :=
  ⟨by decide, ⟨2, by decide⟩, by decide⟩

/-! ### Well-formed states -/

theorem wsub_tail_add (cfg : RBConfig) {t : Nat} (ht : t < cfg.W) (x : Nat) :
    wsub cfg ((t + x) % cfg.W) t = x % cfg.W := by
  have h := wsub_counts cfg (A := t + x) (B := t) (Nat.le_add_right t x)
  rw [Nat.mod_eq_of_lt ht] at h
  simpa using h

/-- Any state decomposes as `head = tail + (head - tail)` modulo `W`. -/
theorem head_eq_tail_add {cfg : RBConfig} {s : RBState α} (hh : s.head < cfg.W)
    (ht : s.tail < cfg.W) :
    s.head = (s.tail + wsub cfg s.head s.tail) % cfg.W := by
  unfold wsub
  rw [Nat.add_mod_mod]
  have hsum : s.tail + (s.head + cfg.W - s.tail) = s.head + cfg.W := by omega
  rw [hsum, Nat.add_mod_right, Nat.mod_eq_of_lt hh]

/-- Advancing `head` by `t` (within range) grows the live difference by `t`. -/
theorem wsub_head_advance {cfg : RBConfig} {s : RBState α} (hh : s.head < cfg.W)
    (ht : s.tail < cfg.W) {t : Nat}
    (hrange : wsub cfg s.head s.tail + t < cfg.W) :
    wsub cfg ((s.head + t) % cfg.W) s.tail = wsub cfg s.head s.tail + t := by
  conv_lhs => rw [head_eq_tail_add hh ht]
  rw [Nat.mod_add_mod, Nat.add_assoc, wsub_tail_add cfg ht]
  exact Nat.mod_eq_of_lt hrange

/-- Advancing `tail` by `t ≤ head - tail` shrinks the live difference by `t`. -/
theorem wsub_tail_advance {cfg : RBConfig} {s : RBState α} (hh : s.head < cfg.W)
    (ht : s.tail < cfg.W) {t : Nat} (hle : t ≤ wsub cfg s.head s.tail)
    (hrange : wsub cfg s.head s.tail < cfg.W) :
    wsub cfg s.head ((s.tail + t) % cfg.W) = wsub cfg s.head s.tail - t := by
  have hW : 0 < cfg.W := cfg.W_pos
  conv_lhs => rw [head_eq_tail_add hh ht]
  have h1 : s.tail + wsub cfg s.head s.tail
      = (s.tail + t) + (wsub cfg s.head s.tail - t) := by omega
  rw [h1, ← Nat.mod_add_mod, wsub_tail_add cfg (Nat.mod_lt _ hW)]
  exact Nat.mod_eq_of_lt (by omega)

/-! ### Batch transfer: counter and count behaviour -/

/-- Under well-formedness, the `IndexT` expression for the free space is the
exact difference `N - (head - tail)`. -/
theorem space_eq {cfg : RBConfig} (hv : cfg.Valid) {s : RBState α}
    (hg : Good cfg s) :
    (cfg.n + cfg.W - wsub cfg s.head s.tail) % cfg.W
      = cfg.n - wsub cfg s.head s.tail := by
  have h1 : wsub cfg s.head s.tail ≤ cfg.n := hg.2.2
  have h2 : cfg.n < cfg.W := hv.n_lt_W
  have h3 : cfg.n + cfg.W - wsub cfg s.head s.tail
      = (cfg.n - wsub cfg s.head s.tail) + cfg.W := by omega
  rw [h3, Nat.add_mod_right]
  exact Nat.mod_eq_of_lt (by omega)

/-- In a sequential run from a well-formed state, `PushBatchCore`'s loop
transfers exactly `min(count - written, N - size)` further elements, leaves
`tail` alone, advances `head` by that amount, and preserves well-formedness. -/
theorem pushBatchLoop_spec {cfg : RBConfig} (hv : cfg.Valid) (src : Nat → α)
    (count : Nat) (s : RBState α) (written : Nat) (hg : Good cfg s)
    (hwc : written ≤ count) :
    (pushBatchLoop cfg src count s written).1
        = written + min (count - written) (cfg.n - wsub cfg s.head s.tail) ∧
    (pushBatchLoop cfg src count s written).2.tail = s.tail ∧
    (pushBatchLoop cfg src count s written).2.head =
      (s.head + min (count - written) (cfg.n - wsub cfg s.head s.tail)) % cfg.W ∧
    Good cfg (pushBatchLoop cfg src count s written).2 := by
  have hW := cfg.W_pos
  obtain ⟨hh, ht, hsz⟩ := hg
  have hnW := hv.n_lt_W
  by_cases h : written < count
  · rw [pushBatchLoop, dif_pos h]
    simp only [space_eq hv ⟨hh, ht, hsz⟩]
    by_cases hfull : 0 < cfg.n - wsub cfg s.head s.tail
    · rw [dif_pos hfull]
      by_cases hcase : count - written ≤ cfg.n - wsub cfg s.head s.tail
      · -- everything left fits: the recursive call exits immediately
        have htw : min (count - written) (cfg.n - wsub cfg s.head s.tail)
            = count - written := min_eq_left hcase
        rw [htw, pushBatchLoop, dif_neg (by omega)]
        have hran : wsub cfg s.head s.tail + (count - written) < cfg.W := by omega
        have hadv := wsub_head_advance hh ht hran
        refine ⟨by omega, rfl, rfl, Nat.mod_lt _ hW, ht, ?_⟩
        rw [hadv]
        omega
      · -- only the free space fits: the next iteration finds space 0
        have htw : min (count - written) (cfg.n - wsub cfg s.head s.tail)
            = cfg.n - wsub cfg s.head s.tail := min_eq_right (by omega)
        rw [htw]
        have hran : wsub cfg s.head s.tail + (cfg.n - wsub cfg s.head s.tail)
            < cfg.W := by omega
        have hadv := wsub_head_advance hh ht hran
        have hgood2 : Good cfg
            { s with
                buf := if cfg.n - wsub cfg s.head s.tail
                    < cfg.n - wsub cfg s.head s.tail then
                    copyArr
                      (copyArr s.buf (s.head &&& (cfg.n - 1)) src written
                        (min (cfg.n - wsub cfg s.head s.tail)
                          (cfg.n - (s.head &&& (cfg.n - 1))))) 0 src
                      (written + min (cfg.n - wsub cfg s.head s.tail)
                        (cfg.n - (s.head &&& (cfg.n - 1))))
                      (cfg.n - wsub cfg s.head s.tail -
                        min (cfg.n - wsub cfg s.head s.tail)
                          (cfg.n - (s.head &&& (cfg.n - 1))))
                  else
                    copyArr s.buf (s.head &&& (cfg.n - 1)) src written
                      (min (cfg.n - wsub cfg s.head s.tail)
                        (cfg.n - (s.head &&& (cfg.n - 1)))),
                head := (s.head + (cfg.n - wsub cfg s.head s.tail)) % cfg.W } :=
          ⟨Nat.mod_lt _ hW, ht, by rw [hadv]; omega⟩
        rw [pushBatchLoop, dif_pos (by omega)]
        simp only [space_eq hv hgood2]
        rw [hadv]
        rw [dif_neg (by omega)]
        exact ⟨rfl, rfl, rfl, hgood2⟩
    · rw [dif_neg hfull]
      have hmin : min (count - written) (cfg.n - wsub cfg s.head s.tail) = 0 := by
        omega
      rw [hmin]
      refine ⟨by omega, rfl, ?_, hh, ht, hsz⟩
      rw [Nat.add_zero, Nat.mod_eq_of_lt hh]
  · rw [pushBatchLoop, dif_neg h]
    have hwritten : written = count := by omega
    have hmin : min (count - written) (cfg.n - wsub cfg s.head s.tail) = 0 := by
      omega
    rw [hmin]
    refine ⟨by omega, rfl, ?_, hh, ht, hsz⟩
    rw [Nat.add_zero, Nat.mod_eq_of_lt hh]

/-- In a sequential run from a well-formed state, `PopBatchCore`'s loop
transfers exactly `min(count - read, size)` further elements, leaves `head`
alone, advances `tail` by that amount, and preserves well-formedness. -/
theorem popBatchLoop_spec {cfg : RBConfig} (hv : cfg.Valid) (count : Nat)
    (s : RBState α) (dst : Nat → α) (read : Nat) (hg : Good cfg s)
    (hrc : read ≤ count) :
    (popBatchLoop cfg count s dst read).1
        = read + min (count - read) (wsub cfg s.head s.tail) ∧
    (popBatchLoop cfg count s dst read).2.1.head = s.head ∧
    (popBatchLoop cfg count s dst read).2.1.tail =
      (s.tail + min (count - read) (wsub cfg s.head s.tail)) % cfg.W ∧
    Good cfg (popBatchLoop cfg count s dst read).2.1 := by
  have hW := cfg.W_pos
  obtain ⟨hh, ht, hsz⟩ := hg
  have hnW := hv.n_lt_W
  by_cases h : read < count
  · rw [popBatchLoop, dif_pos h]
    by_cases hava : 0 < wsub cfg s.head s.tail
    · rw [dif_pos hava]
      by_cases hcase : count - read ≤ wsub cfg s.head s.tail
      · have htw : min (count - read) (wsub cfg s.head s.tail)
            = count - read := min_eq_left hcase
        rw [htw, popBatchLoop, dif_neg (by omega)]
        have hadv := wsub_tail_advance hh ht
          (t := count - read) (by omega) (by omega)
        refine ⟨by omega, rfl, rfl, hh, Nat.mod_lt _ hW, ?_⟩
        rw [hadv]
        omega
      · have htw : min (count - read) (wsub cfg s.head s.tail)
            = wsub cfg s.head s.tail := min_eq_right (by omega)
        rw [htw]
        have hadv := wsub_tail_advance hh ht
          (t := wsub cfg s.head s.tail) (Nat.le_refl _) (by omega)
        rw [popBatchLoop, dif_pos (by omega)]
        rw [hadv]
        rw [dif_neg (by omega)]
        refine ⟨rfl, rfl, rfl, hh, Nat.mod_lt _ hW, by rw [hadv]; omega⟩
    · rw [dif_neg hava]
      have hmin : min (count - read) (wsub cfg s.head s.tail) = 0 := by omega
      rw [hmin]
      refine ⟨by omega, rfl, ?_, hh, ht, hsz⟩
      rw [Nat.add_zero, Nat.mod_eq_of_lt ht]
  · rw [popBatchLoop, dif_neg h]
    have hmin : min (count - read) (wsub cfg s.head s.tail) = 0 := by omega
    rw [hmin]
    refine ⟨by omega, rfl, ?_, hh, ht, hsz⟩
    rw [Nat.add_zero, Nat.mod_eq_of_lt ht]

/-- Reading back a slot written by the two-run copy: slot `(off + j) mod N`
holds `src (w0 + j)` for every `j < k ≤ N`. -/
theorem twoRunWrite_at {cfg : RBConfig} (b src : Nat → α) {off k : Nat}
    (hoff : off < cfg.n) (hk : k ≤ cfg.n) {j : Nat} (hj : j < k) :
    twoRunWrite cfg b src off k ((off + j) % cfg.n) = src j := by
  have hfle : min k (cfg.n - off) ≤ cfg.n - off := min_le_right _ _
  have hfk : min k (cfg.n - off) ≤ k := min_le_left _ _
  unfold twoRunWrite
  by_cases hlt : min k (cfg.n - off) < k
  · have hfeq : min k (cfg.n - off) = cfg.n - off := min_eq_right (by omega)
    rw [if_pos hlt, hfeq]
    simp only [copyArr]
    by_cases hjf : j < cfg.n - off
    · have hidx : (off + j) % cfg.n = off + j := Nat.mod_eq_of_lt (by omega)
      rw [hidx, if_neg (by omega), if_pos (by omega)]
      congr 1
      omega
    · have hidx : (off + j) % cfg.n = j - (cfg.n - off) := by
        rw [Nat.mod_eq_sub_mod (by omega), Nat.mod_eq_of_lt (by omega)]
        omega
      rw [hidx, if_pos (by omega)]
      congr 1
      omega
  · have hfeq : min k (cfg.n - off) = k := by omega
    rw [if_neg hlt, hfeq]
    simp only [copyArr]
    have hidx : (off + j) % cfg.n = off + j := Nat.mod_eq_of_lt (by omega)
    rw [hidx, if_pos (by omega)]
    congr 1
    omega

/-- The two-run read copies slot `(off + i) mod N` to `dst (r0 + i)` for
every `i < k ≤ N`. -/
theorem twoRunRead_at {cfg : RBConfig} (dst buf : Nat → α) {off k : Nat}
    (hoff : off < cfg.n) (hk : k ≤ cfg.n) {i : Nat} (hi : i < k) :
    twoRunRead cfg dst buf off k i = buf ((off + i) % cfg.n) := by
  have hfle : min k (cfg.n - off) ≤ cfg.n - off := min_le_right _ _
  have hfk : min k (cfg.n - off) ≤ k := min_le_left _ _
  unfold twoRunRead
  by_cases hlt : min k (cfg.n - off) < k
  · have hfeq : min k (cfg.n - off) = cfg.n - off := min_eq_right (by omega)
    rw [if_pos hlt, hfeq]
    simp only [copyArr]
    by_cases hif : i < cfg.n - off
    · have hidx : (off + i) % cfg.n = off + i := Nat.mod_eq_of_lt (by omega)
      rw [hidx, if_neg (by omega), if_pos (by omega)]
      congr 1
    · have hidx : (off + i) % cfg.n = i - (cfg.n - off) := by
        rw [Nat.mod_eq_sub_mod (by omega), Nat.mod_eq_of_lt (by omega)]
        omega
      rw [hidx, if_pos (by omega)]
      congr 1
      omega
  · have hfeq : min k (cfg.n - off) = k := by omega
    rw [if_neg hlt, hfeq]
    simp only [copyArr]
    have hidx : (off + i) % cfg.n = off + i := Nat.mod_eq_of_lt (by omega)
    rw [hidx, if_pos (by omega)]
    congr 1

/-- Behaviour of `PushBatchCore` from an empty buffer (`head = tail = c`): it transfers
`min(count, N)` elements, leaves `tail` at `c`, advances `head` by the
transfer count, and slot `(c + j) mod N` holds `src j`. -/
theorem pushBatch_from_empty {cfg : RBConfig} (hv : cfg.Valid) (c : Nat)
    (hc : c < cfg.W) (b src : Nat → α) (count : Nat) :
    (pushBatchCore cfg ⟨c, c, b⟩ src count).1 = min count cfg.n ∧
    (pushBatchCore cfg ⟨c, c, b⟩ src count).2.head
        = (c + min count cfg.n) % cfg.W ∧
    (pushBatchCore cfg ⟨c, c, b⟩ src count).2.tail = c ∧
    ∀ j, j < min count cfg.n →
      (pushBatchCore cfg ⟨c, c, b⟩ src count).2.buf ((c + j) % cfg.n)
        = src j := by
  have hW := cfg.W_pos
  have hnW := hv.n_lt_W
  have hn := hv.n_pos
  have hsub : wsub cfg c c = 0 := wsub_self cfg c
  have hoffm : c &&& (cfg.n - 1) < cfg.n := by
    rw [mask_eq_mod hv]
    exact Nat.mod_lt _ hn
  have hidx : ∀ j, (c + j) % cfg.n = ((c &&& (cfg.n - 1)) + j) % cfg.n := by
    intro j
    rw [mask_eq_mod hv, Nat.mod_add_mod]
  unfold pushBatchCore
  rcases Nat.eq_zero_or_pos count with hcount | hcount
  · subst hcount
    rw [pushBatchLoop, dif_neg (by omega)]
    refine ⟨by simp, ?_, rfl, fun j hj => by simp at hj⟩
    simp
    rw [Nat.mod_eq_of_lt hc]
  · rw [pushBatchLoop, dif_pos hcount]
    simp only [hsub, Nat.sub_zero, Nat.add_mod_right, Nat.mod_eq_of_lt hnW,
      Nat.zero_add]
    rw [dif_pos hn]
    by_cases hcase : count ≤ cfg.n
    · have hnot : ¬ min count cfg.n < count := by omega
      rw [pushBatchLoop, dif_neg hnot]
      refine ⟨rfl, rfl, rfl, fun j hj => ?_⟩
      have h := twoRunWrite_at b src hoffm (min_le_right count cfg.n)
        (j := j) hj
      rw [hidx j]
      exact h
    · have hlt : min count cfg.n < count := by omega
      have hs2 : wsub cfg ((c + min count cfg.n) % cfg.W) c = cfg.n := by
        rw [wsub_tail_add cfg hc,
          Nat.mod_eq_of_lt (lt_of_le_of_lt (min_le_right count cfg.n) hnW)]
        omega
      rw [pushBatchLoop, dif_pos hlt]
      simp only [hs2, Nat.add_sub_cancel_left, Nat.mod_self]
      rw [dif_neg (lt_irrefl 0)]
      refine ⟨rfl, rfl, rfl, fun j hj => ?_⟩
      have h := twoRunWrite_at b src hoffm (min_le_right count cfg.n)
        (j := j) hj
      rw [hidx j]
      exact h

/-- Behaviour of `PopBatchCore` asked for exactly the pending count `k`: it transfers all
`k` elements, and `dst i` receives slot `(tail + i) mod N`. -/
theorem popBatch_content {cfg : RBConfig} (hv : cfg.Valid) (s : RBState α)
    {k : Nat} (hk : k ≤ cfg.n) (hsz : wsub cfg s.head s.tail = k)
    (dst : Nat → α) :
    (popBatchCore cfg s dst k).1 = k ∧
    ∀ i, i < k →
      (popBatchCore cfg s dst k).2.2 i = s.buf ((s.tail + i) % cfg.n) := by
  have hW := cfg.W_pos
  have hn := hv.n_pos
  unfold popBatchCore
  rcases Nat.eq_zero_or_pos k with hk0 | hk0
  · subst hk0
    rw [popBatchLoop, dif_neg (by omega)]
    exact ⟨rfl, fun i hi => by simp at hi⟩
  · rw [popBatchLoop, dif_pos hk0]
    simp only [hsz, Nat.sub_zero, min_self, Nat.zero_add]
    rw [dif_pos hk0]
    rw [popBatchLoop, dif_neg (lt_irrefl k)]
    refine ⟨rfl, fun i hi => ?_⟩
    have h := twoRunRead_at dst s.buf
      (Nat.mod_lt s.tail hn : s.tail % cfg.n < cfg.n) hk (i := i) hi
    have hidx : (s.tail + i) % cfg.n = ((s.tail % cfg.n) + i) % cfg.n := by
      rw [Nat.mod_add_mod]
    rw [hidx, ← h]
    show twoRunRead cfg dst s.buf (s.tail &&& (cfg.n - 1)) k i
        = twoRunRead cfg dst s.buf (s.tail % cfg.n) k i
    rw [mask_eq_mod hv]

/-! ### Reachable states are well-formed -/

theorem good_mkRB (cfg : RBConfig) (d : α) : Good cfg (mkRB d) := by
  refine ⟨cfg.W_pos, cfg.W_pos, ?_⟩
  show wsub cfg 0 0 ≤ cfg.n
  rw [wsub_self]
  exact Nat.zero_le _

/-- When the counters are in range and `tail ≠ head`, the buffer is
non-empty. -/
theorem wsub_pos_of_ne {cfg : RBConfig} {s : RBState α} (hh : s.head < cfg.W)
    (ht : s.tail < cfg.W) (hne : s.tail ≠ s.head) :
    0 < wsub cfg s.head s.tail := by
  rcases Nat.eq_zero_or_pos (wsub cfg s.head s.tail) with h0 | h0
  · exfalso
    apply hne
    have := head_eq_tail_add hh ht
    rw [h0, Nat.add_zero, Nat.mod_eq_of_lt ht] at this
    exact this.symm
  · exact h0

/-! ### Claim C3 -/

/-- Claim C3: `PushBatch(src, count)` and `PopBatch(dst, count)` return a
count in `[0, count]`, zero (for a nonzero request) exactly when the buffer
was full, respectively empty; and from any initially empty buffer
(`head = tail = c`, which covers batches straddling the wraparound
boundary), if `PushBatch(src, count)` returns `k` then `PopBatch(dst, k)`
returns exactly `k` and `dst[0..k) = src[0..k)`. -/
theorem C3_batch_conservation {α : Type} (cfg : RBConfig) (hv : cfg.Valid)
    (s : RBState α) (hg : Good cfg s) (src dst : Nat → α) (count : Nat)
    (c : Nat) (hc : c < cfg.W) (b : Nat → α) :
    (pushBatchCore cfg s src count).1 ≤ count ∧
    (0 < count →
      ((pushBatchCore cfg s src count).1 = 0 ↔
        wsub cfg s.head s.tail = cfg.n)) ∧
    (popBatchCore cfg s dst count).1 ≤ count ∧
    (0 < count →
      ((popBatchCore cfg s dst count).1 = 0 ↔ wsub cfg s.head s.tail = 0)) ∧
    (pushBatchCore cfg ⟨c, c, b⟩ src count).1 = min count cfg.n ∧
    (popBatchCore cfg (pushBatchCore cfg ⟨c, c, b⟩ src count).2 dst
        (pushBatchCore cfg ⟨c, c, b⟩ src count).1).1
      = (pushBatchCore cfg ⟨c, c, b⟩ src count).1 ∧
    ∀ i, i < (pushBatchCore cfg ⟨c, c, b⟩ src count).1 →
      (popBatchCore cfg (pushBatchCore cfg ⟨c, c, b⟩ src count).2 dst
          (pushBatchCore cfg ⟨c, c, b⟩ src count).1).2.2 i = src i := by
  have hsz := hg.2.2
  have hps := pushBatchLoop_spec hv src count s 0 hg (Nat.zero_le _)
  have hpp := popBatchLoop_spec hv count s dst 0 hg (Nat.zero_le _)
  have h1 : (pushBatchCore cfg s src count).1
      = min count (cfg.n - wsub cfg s.head s.tail) := by
    unfold pushBatchCore
    rw [hps.1]
    simp
  have h2 : (popBatchCore cfg s dst count).1
      = min count (wsub cfg s.head s.tail) := by
    unfold popBatchCore
    rw [hpp.1]
    simp
  have hfe := pushBatch_from_empty hv c hc b src count
  have hKn : min count cfg.n ≤ cfg.n := min_le_right _ _
  have hKW : min count cfg.n < cfg.W := lt_of_le_of_lt hKn hv.n_lt_W
  have hsz1 : wsub cfg (pushBatchCore cfg ⟨c, c, b⟩ src count).2.head
      (pushBatchCore cfg ⟨c, c, b⟩ src count).2.tail = min count cfg.n := by
    rw [hfe.2.1, hfe.2.2.1, wsub_tail_add cfg hc, Nat.mod_eq_of_lt hKW]
  have hpc := popBatch_content hv (pushBatchCore cfg ⟨c, c, b⟩ src count).2
    hKn hsz1 dst
  refine ⟨?_, ?_, ?_, ?_, hfe.1, ?_, ?_⟩
  · rw [h1]; exact min_le_left _ _
  · intro hcount
    rw [h1]
    omega
  · rw [h2]; exact min_le_left _ _
  · intro hcount
    rw [h2]
    omega
  · rw [hfe.1]
    exact hpc.1
  · intro i hi
    rw [hfe.1] at hi ⊢
    rw [hpc.2 i hi, hfe.2.2.1]
    exact hfe.2.2.2 i hi

theorem C3_batch_conservation_witness :
    RBConfig.Valid ⟨4, 8⟩ ∧
    ((pushBatchCore ⟨4, 8⟩ (mkRB 0) (fun i => i + 1) 7).1 ≤ 7 ∧
    (0 < 7 →
      ((pushBatchCore ⟨4, 8⟩ (mkRB 0) (fun i => i + 1) 7).1 = 0 ↔
        wsub ⟨4, 8⟩ (mkRB 0 : RBState Nat).head (mkRB 0 : RBState Nat).tail = 4)) ∧
    (popBatchCore ⟨4, 8⟩ (mkRB 0) (fun _ => 0) 7).1 ≤ 7 ∧
    (0 < 7 →
      ((popBatchCore ⟨4, 8⟩ (mkRB 0) (fun _ => 0) 7).1 = 0 ↔
        wsub ⟨4, 8⟩ (mkRB 0 : RBState Nat).head (mkRB 0 : RBState Nat).tail = 0)) ∧
    (pushBatchCore ⟨4, 8⟩ ⟨6, 6, fun _ => 0⟩ (fun i => i + 1) 7).1 = min 7 4 ∧
    (popBatchCore ⟨4, 8⟩ (pushBatchCore ⟨4, 8⟩ ⟨6, 6, fun _ => 0⟩ (fun i => i + 1) 7).2
        (fun _ => 0)
        (pushBatchCore ⟨4, 8⟩ ⟨6, 6, fun _ => 0⟩ (fun i => i + 1) 7).1).1
      = (pushBatchCore ⟨4, 8⟩ ⟨6, 6, fun _ => 0⟩ (fun i => i + 1) 7).1 ∧
    ∀ i, i < (pushBatchCore ⟨4, 8⟩ ⟨6, 6, fun _ => 0⟩ (fun i => i + 1) 7).1 →
      (popBatchCore ⟨4, 8⟩ (pushBatchCore ⟨4, 8⟩ ⟨6, 6, fun _ => 0⟩ (fun i => i + 1) 7).2
          (fun _ => 0)
          (pushBatchCore ⟨4, 8⟩ ⟨6, 6, fun _ => 0⟩ (fun i => i + 1) 7).1).2.2 i
        = i + 1) :=
  ⟨valid_4_8,
   C3_batch_conservation ⟨4, 8⟩ valid_4_8 (mkRB 0)
     ⟨by decide, by decide, by decide⟩ (fun i => i + 1) (fun _ => 0) 7 6
     (by decide) (fun _ => 0)⟩

/-! ### Claim C1 -/

set_option maxRecDepth 8000 in
set_option maxHeartbeats 4000000 in
/-- Claim C1 (code bug): with `IndexT = uint8_t` and `N = 4` the values
returned by successful pops do NOT always form a prefix of the pushed
values.  After 253 push-then-pop cycles the counters sit at
`head = tail = 253`; four more pushes fill the buffer (`head = 1`,
`tail = 253`).  The source's fullness test promotes the operands to `int`,
computes `1 - 253 = -252 ≠ 4` and misses full, so a fifth push succeeds and
overwrites slot `1` — which holds the front element 253 — and the next pop
returns 257 instead of 253: all 258 pushes succeed, all 254 pops succeed,
and the popped sequence is not a prefix of the pushed one. -/
theorem C1_fifo_violation :
    ((runAcc ⟨4, 8⟩ (borrowOps 253 ++
        [SPOp.push 253, SPOp.push 254, SPOp.push 255, SPOp.push 256,
         SPOp.push 257, SPOp.pop]) (mkRB 0) [] []).2.1).length = 258 ∧
    ((runAcc ⟨4, 8⟩ (borrowOps 253 ++
        [SPOp.push 253, SPOp.push 254, SPOp.push 255, SPOp.push 256,
         SPOp.push 257, SPOp.pop]) (mkRB 0) [] []).2.2).length = 254 ∧
    ¬ ((runAcc ⟨4, 8⟩ (borrowOps 253 ++
        [SPOp.push 253, SPOp.push 254, SPOp.push 255, SPOp.push 256,
         SPOp.push 257, SPOp.pop]) (mkRB 0) [] []).2.2
      = ((runAcc ⟨4, 8⟩ (borrowOps 253 ++
        [SPOp.push 253, SPOp.push 254, SPOp.push 255, SPOp.push 256,
         SPOp.push 257, SPOp.pop]) (mkRB 0) [] []).2.1).take 254) := by
  decide

/-! ### Claim C2 -/

set_option maxRecDepth 8000 in
set_option maxHeartbeats 4000000 in
/-- Claim C2 (code bug): push on a full buffer can return `true` and mutate
the counters.  The state below is reachable (253 push-pop cycles and then
four pushes: `head = 1`, `tail = 253`) and full — `head - tail = 4 = N` in
unsigned `IndexT` arithmetic — yet with `IndexT = uint8_t` the source's
promoted-`int` comparison computes `1 - 253 = -252 ≠ 4`, so `Push` succeeds
and advances `head`. -/
theorem C2_push_on_full_succeeds :
    wsub ⟨4, 8⟩
        (runAcc ⟨4, 8⟩ (borrowOps 253 ++
          [SPOp.push 253, SPOp.push 254, SPOp.push 255, SPOp.push 256])
          (mkRB 0) [] []).1.head
        (runAcc ⟨4, 8⟩ (borrowOps 253 ++
          [SPOp.push 253, SPOp.push 254, SPOp.push 255, SPOp.push 256])
          (mkRB 0) [] []).1.tail = 4 ∧
    (push ⟨4, 8⟩ (runAcc ⟨4, 8⟩ (borrowOps 253 ++
          [SPOp.push 253, SPOp.push 254, SPOp.push 255, SPOp.push 256])
          (mkRB 0) [] []).1 257).1 = true ∧
    (push ⟨4, 8⟩ (runAcc ⟨4, 8⟩ (borrowOps 253 ++
          [SPOp.push 253, SPOp.push 254, SPOp.push 255, SPOp.push 256])
          (mkRB 0) [] []).1 257).2.head
      ≠ (runAcc ⟨4, 8⟩ (borrowOps 253 ++
          [SPOp.push 253, SPOp.push 254, SPOp.push 255, SPOp.push 256])
          (mkRB 0) [] []).1.head := by
  decide

/-! ### Claim C4 -/

set_option maxRecDepth 8000 in
set_option maxHeartbeats 4000000 in
/-- Claim C4 (code bug): the unsigned subtraction `head - tail` does not
always stay in `[0, N]`.  With `IndexT = uint8_t` (which satisfies
`N ≤ MAX(I)/2`), after the reachable trace below — 253 cycles, four filling
pushes, and one more push that the promoted-`int` fullness test wrongly
lets through — the live difference is `5 > N = 4`. -/
theorem C4_count_exceeds_capacity :
    wsub ⟨4, 8⟩
        (runAcc ⟨4, 8⟩ (borrowOps 253 ++
          [SPOp.push 253, SPOp.push 254, SPOp.push 255, SPOp.push 256,
           SPOp.push 257]) (mkRB 0) [] []).1.head
        (runAcc ⟨4, 8⟩ (borrowOps 253 ++
          [SPOp.push 253, SPOp.push 254, SPOp.push 255, SPOp.push 256,
           SPOp.push 257]) (mkRB 0) [] []).1.tail = 5 ∧
    ¬ (wsub ⟨4, 8⟩
        (runAcc ⟨4, 8⟩ (borrowOps 253 ++
          [SPOp.push 253, SPOp.push 254, SPOp.push 255, SPOp.push 256,
           SPOp.push 257]) (mkRB 0) [] []).1.head
        (runAcc ⟨4, 8⟩ (borrowOps 253 ++
          [SPOp.push 253, SPOp.push 254, SPOp.push 255, SPOp.push 256,
           SPOp.push 257]) (mkRB 0) [] []).1.tail ≤ 4) := by
  decide

/-! ### Claim C5 -/

set_option maxRecDepth 8000 in
set_option maxHeartbeats 4000000 in
/-- Claim C5 (code bug): the bounds check of `At` diverges from
`i ≥ head - tail` in two ways (`IndexT = uint8_t`, `N = 4`).
Truncation: with one element stored (`head = 1`, `tail = 0`, reached by one
push), `At(256)` truncates the index with `static_cast<IndexT>` to `0`,
fails the emptiness-side check and returns a non-null pointer although
`256 ≥ head - tail = 1`.  Signed promotion: in the reachable borrow state
`head = 0`, `tail = 253` with three elements pending, the promoted
difference `0 - 253 = -253` is negative, so `At(0)` returns null although
`0 < head - tail = 3`. -/
theorem C5_at_bug :
    (wsub ⟨4, 8⟩ (push ⟨4, 8⟩ (mkRB (0 : Nat)) 42).2.head
        (push ⟨4, 8⟩ (mkRB (0 : Nat)) 42).2.tail ≤ 256 ∧
     atIdx ⟨4, 8⟩ (push ⟨4, 8⟩ (mkRB (0 : Nat)) 42).2 256 ≠ none) ∧
    (0 < wsub ⟨4, 8⟩
        (runAcc ⟨4, 8⟩ (borrowOps 253 ++
          [SPOp.push 253, SPOp.push 254, SPOp.push 255]) (mkRB 0) [] []).1.head
        (runAcc ⟨4, 8⟩ (borrowOps 253 ++
          [SPOp.push 253, SPOp.push 254, SPOp.push 255]) (mkRB 0) [] []).1.tail ∧
     atIdx ⟨4, 8⟩
        (runAcc ⟨4, 8⟩ (borrowOps 253 ++
          [SPOp.push 253, SPOp.push 254, SPOp.push 255]) (mkRB 0) [] []).1 0
      = none) := by
  decide

/-! ### Claim C6 -/

/-- Claim C6: `ProducerClear` stores the loaded `tail` into `head` and
`ConsumerClear` stores the loaded `head` into `tail`; each leaves the buffer
logically empty (`Size() = 0`) and mutates only the counter owned by its
role, every other field of the state being unchanged. -/
theorem C6_clear_semantics {α : Type} (cfg : RBConfig) (s : RBState α) :
    (producerClear s).head = s.tail ∧
    (producerClear s).tail = s.tail ∧
    (producerClear s).buf = s.buf ∧
    size cfg (producerClear s) = 0 ∧
    (consumerClear s).tail = s.head ∧
    (consumerClear s).head = s.head ∧
    (consumerClear s).buf = s.buf ∧
    size cfg (consumerClear s) = 0 := by
  refine ⟨rfl, rfl, rfl, ?_, rfl, rfl, rfl, ?_⟩
  · show wsub cfg s.tail s.tail = 0
    exact wsub_self cfg s.tail
  · show wsub cfg s.head s.head = 0
    exact wsub_self cfg s.head

/-! ### Claim C7 -/

/-- Claim C7 is false as stated: starting from the constructor state, one
successful push makes `head = 1 > tail = 0`, and `ProducerClear` then stores
`0` into `head` — an operation that stores into `head` a value smaller than
the `head` it loaded. -/
theorem C7_counterexample :
    (push ⟨4, 8⟩ (mkRB (0 : Nat)) 42).1 = true ∧
    (producerClear (push ⟨4, 8⟩ (mkRB (0 : Nat)) 42).2).head
      < (push ⟨4, 8⟩ (mkRB (0 : Nat)) 42).2.head := by
  decide

/-- Claim C7 amended: on well-formed states, `tail` only advances — every
consumer-side operation stores `tail + k (mod 2^w)` for some
`0 ≤ k ≤ head − tail` — and `head` only advances under every producer-side
operation except `ProducerClear`: a single-element or callback push stores
`head + k (mod 2^w)` with `k ≤ 1` (because of the promoted-`int` fullness
test, the push may advance even on a full buffer, so `k` is not bounded by
the free space), a batch push stores `head + k (mod 2^w)` with
`0 ≤ k ≤ N − (head − tail)`; `ProducerClear` instead stores the loaded
`tail` into `head` (which is smaller than `head` whenever the buffer is
non-empty, as the counterexample shows). -/
theorem C7_counter_monotonicity {α σ : Type} (cfg : RBConfig) (hv : cfg.Valid)
    (s : RBState α) (hg : Good cfg s) (v : α) (f : σ → α × σ) (cs : σ)
    (src dst : Nat → α) (count : Nat) :
    ((push cfg s v).2.tail = s.tail ∧
      ∃ k, k ≤ 1 ∧
        (push cfg s v).2.head = (s.head + k) % cfg.W) ∧
    ((pushFromCallback cfg s f cs).2.1.tail = s.tail ∧
      ∃ k, k ≤ 1 ∧
        (pushFromCallback cfg s f cs).2.1.head = (s.head + k) % cfg.W) ∧
    ((pushBatchCore cfg s src count).2.tail = s.tail ∧
      ∃ k, k ≤ cfg.n - wsub cfg s.head s.tail ∧
        (pushBatchCore cfg s src count).2.head = (s.head + k) % cfg.W) ∧
    ((pop cfg s).2.head = s.head ∧
      ∃ k, k ≤ wsub cfg s.head s.tail ∧
        (pop cfg s).2.tail = (s.tail + k) % cfg.W) ∧
    ((popBatchCore cfg s dst count).2.1.head = s.head ∧
      ∃ k, k ≤ wsub cfg s.head s.tail ∧
        (popBatchCore cfg s dst count).2.1.tail = (s.tail + k) % cfg.W) ∧
    ((discard cfg s count).2.head = s.head ∧
      ∃ k, k ≤ wsub cfg s.head s.tail ∧
        (discard cfg s count).2.tail = (s.tail + k) % cfg.W) ∧
    ((consumerClear s).head = s.head ∧
      ∃ k, k ≤ wsub cfg s.head s.tail ∧
        (consumerClear s).tail = (s.tail + k) % cfg.W) ∧
    ((producerClear s).tail = s.tail ∧ (producerClear s).head = s.tail) := by
  obtain ⟨hh, ht, hsz⟩ := hg
  have hps := pushBatchLoop_spec hv src count s 0 ⟨hh, ht, hsz⟩ (Nat.zero_le _)
  have hpp := popBatchLoop_spec hv count s dst 0 ⟨hh, ht, hsz⟩ (Nat.zero_le _)
  refine ⟨?_, ?_, ⟨hps.2.1, _, min_le_right _ _, hps.2.2.1⟩, ?_,
    ⟨hpp.2.1, _, min_le_right _ _, hpp.2.2.1⟩, ?_, ?_, rfl, rfl⟩
  · unfold push
    by_cases hfull : fullCheck cfg s.head s.tail
    · rw [if_pos hfull]
      exact ⟨rfl, 0, Nat.zero_le _, by simp [Nat.mod_eq_of_lt hh]⟩
    · rw [if_neg hfull]
      exact ⟨rfl, 1, Nat.le_refl _, rfl⟩
  · unfold pushFromCallback
    by_cases hfull : fullCheck cfg s.head s.tail
    · rw [if_pos hfull]
      exact ⟨rfl, 0, Nat.zero_le _, by simp [Nat.mod_eq_of_lt hh]⟩
    · rw [if_neg hfull]
      exact ⟨rfl, 1, Nat.le_refl _, rfl⟩
  · unfold pop
    by_cases hne : s.tail = s.head
    · rw [if_pos hne]
      exact ⟨rfl, 0, Nat.zero_le _, by simp [Nat.mod_eq_of_lt ht]⟩
    · rw [if_neg hne]
      exact ⟨rfl, 1, wsub_pos_of_ne hh ht hne, rfl⟩
  · unfold discard
    by_cases h0 : 0 < min count (wsub cfg s.head s.tail)
    · rw [if_pos h0]
      exact ⟨rfl, min count (wsub cfg s.head s.tail), min_le_right _ _, rfl⟩
    · rw [if_neg h0]
      exact ⟨rfl, 0, Nat.zero_le _, by simp [Nat.mod_eq_of_lt ht]⟩
  · exact ⟨rfl, wsub cfg s.head s.tail, Nat.le_refl _, head_eq_tail_add hh ht⟩

theorem C7_counter_monotonicity_witness :
    RBConfig.Valid ⟨4, 8⟩ ∧ Good ⟨4, 8⟩ (mkRB (0 : Nat)) ∧
    (((push ⟨4, 8⟩ (mkRB (0 : Nat)) 7).2.tail = (mkRB (0 : Nat) : RBState Nat).tail ∧
      ∃ k, k ≤ 1 ∧
        (push ⟨4, 8⟩ (mkRB (0 : Nat)) 7).2.head =
          ((mkRB (0 : Nat) : RBState Nat).head + k) % RBConfig.W ⟨4, 8⟩) ∧
    ((pushFromCallback ⟨4, 8⟩ (mkRB (0 : Nat)) (fun u : Unit => (7, u)) ()).2.1.tail
        = (mkRB (0 : Nat) : RBState Nat).tail ∧
      ∃ k, k ≤ 1 ∧
        (pushFromCallback ⟨4, 8⟩ (mkRB (0 : Nat)) (fun u : Unit => (7, u)) ()).2.1.head
          = ((mkRB (0 : Nat) : RBState Nat).head + k) % RBConfig.W ⟨4, 8⟩) ∧
    ((pushBatchCore ⟨4, 8⟩ (mkRB (0 : Nat)) (fun i => i) 9).2.tail
        = (mkRB (0 : Nat) : RBState Nat).tail ∧
      ∃ k, k ≤ 4 - wsub ⟨4, 8⟩ (mkRB (0 : Nat) : RBState Nat).head
          (mkRB (0 : Nat) : RBState Nat).tail ∧
        (pushBatchCore ⟨4, 8⟩ (mkRB (0 : Nat)) (fun i => i) 9).2.head
          = ((mkRB (0 : Nat) : RBState Nat).head + k) % RBConfig.W ⟨4, 8⟩) ∧
    ((pop ⟨4, 8⟩ (mkRB (0 : Nat))).2.head = (mkRB (0 : Nat) : RBState Nat).head ∧
      ∃ k, k ≤ wsub ⟨4, 8⟩ (mkRB (0 : Nat) : RBState Nat).head
          (mkRB (0 : Nat) : RBState Nat).tail ∧
        (pop ⟨4, 8⟩ (mkRB (0 : Nat))).2.tail =
          ((mkRB (0 : Nat) : RBState Nat).tail + k) % RBConfig.W ⟨4, 8⟩) ∧
    ((popBatchCore ⟨4, 8⟩ (mkRB (0 : Nat)) (fun _ => 0) 9).2.1.head
        = (mkRB (0 : Nat) : RBState Nat).head ∧
      ∃ k, k ≤ wsub ⟨4, 8⟩ (mkRB (0 : Nat) : RBState Nat).head
          (mkRB (0 : Nat) : RBState Nat).tail ∧
        (popBatchCore ⟨4, 8⟩ (mkRB (0 : Nat)) (fun _ => 0) 9).2.1.tail
          = ((mkRB (0 : Nat) : RBState Nat).tail + k) % RBConfig.W ⟨4, 8⟩) ∧
    ((discard ⟨4, 8⟩ (mkRB (0 : Nat)) 9).2.head = (mkRB (0 : Nat) : RBState Nat).head ∧
      ∃ k, k ≤ wsub ⟨4, 8⟩ (mkRB (0 : Nat) : RBState Nat).head
          (mkRB (0 : Nat) : RBState Nat).tail ∧
        (discard ⟨4, 8⟩ (mkRB (0 : Nat)) 9).2.tail =
          ((mkRB (0 : Nat) : RBState Nat).tail + k) % RBConfig.W ⟨4, 8⟩) ∧
    ((consumerClear (mkRB (0 : Nat))).head = (mkRB (0 : Nat) : RBState Nat).head ∧
      ∃ k, k ≤ wsub ⟨4, 8⟩ (mkRB (0 : Nat) : RBState Nat).head
          (mkRB (0 : Nat) : RBState Nat).tail ∧
        (consumerClear (mkRB (0 : Nat))).tail =
          ((mkRB (0 : Nat) : RBState Nat).tail + k) % RBConfig.W ⟨4, 8⟩) ∧
    ((producerClear (mkRB (0 : Nat))).tail = (mkRB (0 : Nat) : RBState Nat).tail ∧
      (producerClear (mkRB (0 : Nat))).head = (mkRB (0 : Nat) : RBState Nat).tail)) :=
  ⟨valid_4_8, ⟨by decide, by decide, by decide⟩,
   C7_counter_monotonicity ⟨4, 8⟩ valid_4_8 (mkRB 0)
     ⟨by decide, by decide, by decide⟩ 7 (fun u : Unit => (7, u)) ()
     (fun i => i) (fun _ => 0) 9⟩

/-! ### Claim C8 -/

set_option maxRecDepth 8000 in
set_option maxHeartbeats 4000000 in
/-- Claim C8 (code bug): `PushFromCallback` can invoke the callback on a
full buffer.  At the reachable full state below (`head = 1`, `tail = 253`,
`head - tail = 4 = N`, `IndexT = uint8_t`), the promoted-`int` fullness
test computes `1 - 253 = -252 ≠ 4` and misses full: the callback — modelled
with an invocation counter as its state — runs exactly once and the call
returns `true`, contradicting the claim that on a full buffer `f` is not
invoked and the call returns `false`. -/
theorem C8_callback_invoked_on_full :
    wsub ⟨4, 8⟩
        (runAcc ⟨4, 8⟩ (borrowOps 253 ++
          [SPOp.push 253, SPOp.push 254, SPOp.push 255, SPOp.push 256])
          (mkRB 0) [] []).1.head
        (runAcc ⟨4, 8⟩ (borrowOps 253 ++
          [SPOp.push 253, SPOp.push 254, SPOp.push 255, SPOp.push 256])
          (mkRB 0) [] []).1.tail = 4 ∧
    (pushFromCallback ⟨4, 8⟩
        (runAcc ⟨4, 8⟩ (borrowOps 253 ++
          [SPOp.push 253, SPOp.push 254, SPOp.push 255, SPOp.push 256])
          (mkRB 0) [] []).1
        (fun k : Nat => (257, k + 1)) 0).1 = true ∧
    (pushFromCallback ⟨4, 8⟩
        (runAcc ⟨4, 8⟩ (borrowOps 253 ++
          [SPOp.push 253, SPOp.push 254, SPOp.push 255, SPOp.push 256])
          (mkRB 0) [] []).1
        (fun k : Nat => (257, k + 1)) 0).2.2 = 1 := by
  decide

/-! ### Claim C9 -/

set_option maxRecDepth 8000 in
set_option maxHeartbeats 4000000 in
/-- Claim C9 (code bug): the invariant `0 ≤ head - tail ≤ N` is not
preserved by every operation.  The trace below uses only `Push` and `Pop`
(operations of the surface; `FullOp.push` and `FullOp.pop` in `stepFull`
have exactly these state effects): 253 push-pop cycles, four filling
pushes, and one more push that the promoted-`int` fullness test wrongly
admits (`IndexT = uint8_t`).  In the reached state `Size() = 5 > 4 =
Capacity()` and `Size() + Available() ≠ Capacity()`. -/
theorem C9_invariant_violated :
    size ⟨4, 8⟩ (runAcc ⟨4, 8⟩ (borrowOps 253 ++
        [SPOp.push 253, SPOp.push 254, SPOp.push 255, SPOp.push 256,
         SPOp.push 257]) (mkRB 0) [] []).1 = 5 ∧
    ¬ (size ⟨4, 8⟩ (runAcc ⟨4, 8⟩ (borrowOps 253 ++
        [SPOp.push 253, SPOp.push 254, SPOp.push 255, SPOp.push 256,
         SPOp.push 257]) (mkRB 0) [] []).1 ≤ capacity ⟨4, 8⟩) ∧
    size ⟨4, 8⟩ (runAcc ⟨4, 8⟩ (borrowOps 253 ++
        [SPOp.push 253, SPOp.push 254, SPOp.push 255, SPOp.push 256,
         SPOp.push 257]) (mkRB 0) [] []).1 +
      availableSlots ⟨4, 8⟩ (runAcc ⟨4, 8⟩ (borrowOps 253 ++
        [SPOp.push 253, SPOp.push 254, SPOp.push 255, SPOp.push 256,
         SPOp.push 257]) (mkRB 0) [] []).1 ≠ capacity ⟨4, 8⟩ := by
  decide

/-! ### Claim C10 -/

/-- Claim C10: whenever `Pop(data)` returns `false` the out-parameter keeps
exactly the value it had before the call — the slot read and the assignment
happen only after the emptiness check passes — and the failure case is
exactly `tail = head`, with the whole state unchanged. -/
theorem C10_pop_failure_frame {α : Type} (cfg : RBConfig) (s : RBState α)
    (d : α) :
    ((popRef cfg s d).1 = false → popRef cfg s d = (false, s, d)) ∧
    (s.tail = s.head → popRef cfg s d = (false, s, d)) := by
  constructor
  · intro h
    unfold popRef at h ⊢
    by_cases hne : s.tail = s.head
    · rw [if_pos hne]
    · rw [if_neg hne] at h
      simp at h
  · intro h
    unfold popRef
    rw [if_pos h]

theorem C10_pop_failure_frame_witness :
    (popRef ⟨4, 8⟩ (mkRB (0 : Nat)) 99 = (false, mkRB 0, 99)) ∧
    (popRef ⟨4, 8⟩ (mkRB (0 : Nat)) 99 = (false, mkRB 0, 99)) :=
  ⟨(C10_pop_failure_frame ⟨4, 8⟩ (mkRB 0) 99).1 (by decide),
   (C10_pop_failure_frame ⟨4, 8⟩ (mkRB 0) 99).2 (by decide)⟩

end Spsc
